import Mathlib

/-!
Verification of the lettercast episode-acquisition pipeline.

Shallow embedding of the pipeline's core functions, translated from the
Python source:

* `src/database/models.py` — the newline encode/decode listeners on the
  episode summary column (`encode_newlines`, `decode_newlines`);
* `src/utils/downloader.py` — `download_audio`, with HTTP responses,
  temp-file creation and wall-clock readings supplied by an environment
  record (`DlEnv`), and the scratch-directory contents tracked in the
  output (`DlOut`);
* `src/utils/audio_transformer.py` — `chunk_audio`, with the audio's
  decoded length in milliseconds and per-segment export outcomes supplied
  by the environment;
* `src/handler.py` — `find_unprocessed_episodes`, `process_episode`
  (as `process_episode_pipeline` for the body of its `try` block plus
  `process_episode` for the catch-all boundary), and `lambda_handler`.

Strings are modelled as Lean `String`/`List Char`; Python `str.replace`
with two-character patterns is modelled by structural recursion performing
the same left-to-right non-overlapping scan.  Machine floats appear only
in unit conversions (`len(audio)/(1000*60) <= 20` etc.), which are
modelled by the equivalent exact integer comparisons.
-/

namespace Lettercast

/-! ### Newline encoding on the summary column (src/database/models.py) -/

/-- Python `value.replace('\n', '\\n')`: the `encode_newlines` listener run
when an episode summary is set.  Left-to-right scan replacing each newline
character by the two-character sequence backslash-n. -/
def encode_newlines : List Char → List Char
  | [] => []
  | c :: cs => if c = '\n' then '\\' :: 'n' :: encode_newlines cs else c :: encode_newlines cs

/-- Python `target.summary.replace('\\n', '\n')`: the `decode_newlines`
listener run when an episode row is loaded.  Left-to-right scan over
non-overlapping occurrences of backslash-n, replacing each by a newline. -/
def decode_newlines : List Char → List Char
  | [] => []
  | [c] => [c]
  | c1 :: c2 :: cs =>
    if c1 = '\\' then
      if c2 = 'n' then '\n' :: decode_newlines cs
      else c1 :: decode_newlines (c2 :: cs)
    else c1 :: decode_newlines (c2 :: cs)

/-- Whether the text contains the two-character sequence backslash-n. -/
def containsBackslashN : List Char → Bool
  | [] => false
  | [_] => false
  | c1 :: c2 :: cs => (c1 = '\\' && c2 = 'n') || containsBackslashN (c2 :: cs)

/-! ### Bounded downloader (src/utils/downloader.py, download_audio) -/

/-- The failure modes of `download_audio`: `DownloadError("Invalid URL")`,
`DownloadError("Failed to check file size")`, `FileSizeError`,
`DownloadError("Failed to create temporary file")`,
`DownloadError("Download failed")` / `raise_for_status`, and
`DownloadTimeoutError`. -/
inductive DlError
  | invalidUrl
  | sizeProbeFailed
  | sizeLimitExceeded
  | tempFileFailed
  | requestFailed
  | timeout
deriving DecidableEq

/-- Environment of one `download_audio` call: what the URL parse, the HTTP
responses, the filesystem and the wall clock return.  `chunks` lists the
body chunks `iter_content` yields, each with its size in bytes and the
elapsed wall-clock seconds observed at the per-chunk timeout check. -/
structure DlEnv where
  schemeOk : Bool
  hostOk : Bool
  headOk : Bool
  headContentLength : Option Nat
  getProbeOk : Bool
  getContentLength : Option Nat
  maxFileSizeMb : Nat
  maxDownloadSeconds : Nat
  createOk : Bool
  bodyOk : Bool
  chunks : List (Nat × Nat)
  streamTailOk : Bool
deriving DecidableEq

/-- Result of one `download_audio` call.  `fileCreated` records whether a
temporary file was ever created; `filesRemaining` how many files the call
leaves in the scratch directory; `bytesWritten` how many body bytes were
written to disk during the call (before any cleanup). -/
structure DlOut where
  result : Except DlError Unit
  fileCreated : Bool
  filesRemaining : Nat
  bytesWritten : Nat

/-- The size probe of `download_audio` (its lines 80-99 without the size
comparison): `int(HEAD.headers.get('content-length', 0))`, falling back to
the streaming GET's headers when that is `0`; a `requests.RequestException`
becomes `DownloadError("Failed to check file size")`. -/
def probeSize (env : DlEnv) : Except DlError Nat :=
  if env.headOk then
    let t0 := env.headContentLength.getD 0
    if t0 = 0 then
      if env.getProbeOk then .ok (env.getContentLength.getD 0) else .error .sizeProbeFailed
    else .ok t0
  else .error .sizeProbeFailed

/-- The download loop of `download_audio`: for each chunk, skip it if empty,
otherwise raise `DownloadTimeoutError` when the elapsed time exceeds the
limit, else write it.  Returns the timeout error (if any) and the bytes
written up to that point. -/
def dlLoop (maxTime : Nat) : List (Nat × Nat) → Nat → Option DlError × Nat
  | [], written => (none, written)
  | (sz, t) :: rest, written =>
    if sz = 0 then dlLoop maxTime rest written
    else if t > maxTime then (some .timeout, written)
    else dlLoop maxTime rest (written + sz)

/-- `download_audio(url, constraints)`.  URL validation, size probe, size
check (`size_mb > max_size`, exactly `total > max_size * 1024 * 1024`),
temp-file creation, body request, chunked write with per-chunk timeout.
Every failure after the temp file exists deletes it (the two outer
`except` clauses), so `filesRemaining` is `1` on success and `0` on every
failure path. -/
def download_audio (env : DlEnv) : DlOut :=
  if env.schemeOk && env.hostOk then
    match probeSize env with
    | .error e => ⟨.error e, false, 0, 0⟩
    | .ok total =>
      if total > env.maxFileSizeMb * 1048576 then ⟨.error .sizeLimitExceeded, false, 0, 0⟩
      else if env.createOk then
        if env.bodyOk then
          match dlLoop env.maxDownloadSeconds env.chunks 0 with
          | (some e, written) => ⟨.error e, true, 0, written⟩
          | (none, written) =>
            if env.streamTailOk then ⟨.ok (), true, 1, written⟩
            else ⟨.error .requestFailed, true, 0, written⟩
        else ⟨.error .requestFailed, true, 0, 0⟩
      else ⟨.error .tempFileFailed, false, 0, 0⟩
    else ⟨.error .invalidUrl, false, 0, 0⟩

/-! ### Audio chunking (src/utils/audio_transformer.py, chunk_audio) -/

/-- Ceiling division, the length of Python `range(0, stop, step)` for a
positive step. -/
def ceilDiv (a b : Nat) : Nat := (a + b - 1) / b

/-- Python `range(0, stop, step)` for `step > 0`: the multiples of `step`
below `stop`, in order. -/
def pyRange (stop step : Nat) : List Nat :=
  (List.range (ceilDiv stop step)).map (fun i => i * step)

/-- The segment list `chunk_audio` slices when every export succeeds:
segment start `start_ms` paired with `end_ms = min(start_ms + chunk_duration_ms,
total_duration_ms)`, one per element of `range(0, total, chunk_duration_ms)`. -/
def chunkSegs (L S : Nat) : List (Nat × Nat) :=
  (pyRange L S).map (fun st => (st, min (st + S) L))

/-- The chunk-creation loop of `chunk_audio` over the enumerated segment
starts.  Every iteration first creates the segment's temp file
(`tempfile.NamedTemporaryFile(suffix='.mp3', delete=False)` puts it on
disk at construction) and then runs `chunk.export` into it; a failing
export aborts the loop with that just-created file still on disk, so the
failing iteration itself leaves one file besides the earlier chunks.  The
second component counts the files on disk — the `except` clause of
`chunk_audio` deletes nothing. -/
def chunkGo (L S : Nat) (exportOk : Nat → Bool) :
    List (Nat × Nat) → Except Unit (List (Nat × Nat)) × Nat
  | [] => (.ok [], 0)
  | (i, st) :: rest =>
    if exportOk i then
      match chunkGo L S exportOk rest with
      | (.ok segs, k) => (.ok ((st, min (st + S) L) :: segs), k + 1)
      | (.error e, k) => (.error e, k + 1)
    else (.error (), 1)

/-- Result of one `chunk_audio` call: the raised `AudioTransformationError`
or the produced segments, and how many files remain on disk when the call
returns — the source has no cleanup on its failure path, and on an export
failure the count includes the failing segment's temp file, which
`NamedTemporaryFile(delete=False)` created before the export ran. -/
structure ChunkOut where
  result : Except Unit (List (Nat × Nat))
  filesRemaining : Nat

/-- `chunk_audio(audio_path, chunk_minutes)`.  `lengthMs` is
`len(AudioSegment.from_file(audio_path))`; `loadOk` whether that load
succeeds; `exportOk i` whether exporting segment `i` succeeds.  Segment
size is `chunk_minutes * 60 * 1000` milliseconds.  Any failure is wrapped
in a single `AudioTransformationError` (the `.error` result). -/
def chunk_audio (lengthMs chunkMinutes : Nat) (loadOk : Bool) (exportOk : Nat → Bool) :
    ChunkOut :=
  if loadOk then
    let S := chunkMinutes * 60 * 1000
    let p := chunkGo lengthMs S exportOk (pyRange lengthMs S).enum
    ⟨p.1, p.2⟩
  else ⟨.error (), 0⟩

/-! ### Per-episode processor (src/handler.py, process_episode) -/

/-- Outcome status of `process_episode` (the `status` key of its result
dict). -/
inductive Status
  | success
  | error
deriving DecidableEq

/-- The failure families `process_episode` can catch: a `DownloadError`
from the downloader, an `AudioTransformationError` from `get_audio_length`
or from `chunk_audio`, an `AnalyzerError` from generation, a database
error from `create_episode`/`commit`, or an exception escaping
`trigger_email_notification` (its `boto3.client` call is outside that
function's own `try`). -/
inductive EpFailure
  | download (e : DlError)
  | audioLength
  | chunking
  | generation
  | persistence
  | notification
deriving DecidableEq

/-- Which file is handed to the generation collaborator as an audio
argument.  `downloaded` is the raw download; `normalized` a
`transform_audio` output (mono, 16 kHz, low-bitrate mp3); `chunk i` the
`i`-th chunk file. -/
inductive FileKind
  | downloaded
  | normalized
  | chunk (index : Nat)
deriving DecidableEq

/-- Environment of one `process_episode` invocation: the downloader's
environment, the audio length `get_audio_length` reads (in milliseconds,
`len(audio)`; the source compares `len(audio)/(1000*60) <= 20`, i.e.
`lengthMs <= 20*60*1000`), whether that read succeeds, the chunking
oracle, and the outcomes of generation, persistence and notification. -/
structure EpEnv where
  dl : DlEnv
  lengthOk : Bool
  lengthMs : Nat
  chunkLoadOk : Bool
  chunkExportOk : Nat → Bool
  generateOk : Bool
  newsletterRaw : String
  persistOk : Bool
  notifyOk : Bool

/-- Temp files left in the scratch directory when `process_episode`
returns: files owned by the downloader and chunk files. -/
structure Disk where
  downloadFiles : Nat
  chunkFiles : Nat
deriving DecidableEq

/-- The audio arguments of the one `GLOBAL_ANALYZER.process_podcast` call:
the file passed as `audio_path` and the number of `chunk_paths` entries. -/
structure GenCall where
  mainAudio : FileKind
  chunkCount : Nat
deriving DecidableEq

/-- What the body of `process_episode`'s `try` block produces: the
newsletter (or the exception that escaped), the scratch-directory contents
at return time, and the generation call made (if reached). -/
structure PipeOut where
  body : Except EpFailure String
  disk : Disk
  generationCall : Option GenCall

/-- The output sanitization of `process_episode` (its lines 136-141):
strip, drop a wrapping pair of markdown code fences (first and last line),
remove the NEWSLETTER tags, strip again. -/
def sanitizeNewsletter (s : String) : String :=
  let t := s.trim
  let t2 :=
    if t.startsWith "```" && t.endsWith "```" then
      String.intercalate "\n" ((t.splitOn "\n").drop 1).dropLast
    else t
  ((t2.replace "<NEWSLETTER>" "").replace "</NEWSLETTER>" "").trim

/-- The `try` block of `process_episode` (handler.py lines 109-174),
including the cleanup effects of every exit path.  The downloaded file is
acquired through `download_audio_context`, whose `finally` deletes it on
every exit from the `with` block (also on the `return`), so
`disk.downloadFiles` is `0` whenever the download succeeded; on a download
failure the downloader's own cleanup applies.  Chunk files are deleted
only by the explicit loop that runs after notification, just before the
success result is built — on any exception after chunking they remain. -/
def process_episode_pipeline (env : EpEnv) : PipeOut :=
  match (download_audio env.dl).result with
  | .error e => ⟨.error (.download e), ⟨(download_audio env.dl).filesRemaining, 0⟩, none⟩
  | .ok _ =>
    if env.lengthOk then
      if env.lengthMs ≤ 20 * 60 * 1000 then
        if env.generateOk then
          if env.persistOk then
            if env.notifyOk then
              ⟨.ok (sanitizeNewsletter env.newsletterRaw), ⟨0, 0⟩, some ⟨.downloaded, 0⟩⟩
            else ⟨.error .notification, ⟨0, 0⟩, some ⟨.downloaded, 0⟩⟩
          else ⟨.error .persistence, ⟨0, 0⟩, some ⟨.downloaded, 0⟩⟩
        else ⟨.error .generation, ⟨0, 0⟩, some ⟨.downloaded, 0⟩⟩
      else
        match chunk_audio env.lengthMs 20 env.chunkLoadOk env.chunkExportOk with
        | ⟨.error _, k⟩ => ⟨.error .chunking, ⟨0, k⟩, none⟩
        | ⟨.ok segs, k⟩ =>
          if env.generateOk then
            if env.persistOk then
              if env.notifyOk then
                ⟨.ok (sanitizeNewsletter env.newsletterRaw), ⟨0, 0⟩,
                  some ⟨.downloaded, segs.length⟩⟩
              else ⟨.error .notification, ⟨0, k⟩, some ⟨.downloaded, segs.length⟩⟩
            else ⟨.error .persistence, ⟨0, k⟩, some ⟨.downloaded, segs.length⟩⟩
          else ⟨.error .generation, ⟨0, k⟩, some ⟨.downloaded, segs.length⟩⟩
    else ⟨.error .audioLength, ⟨0, 0⟩, none⟩

/-- The structured result dict of `process_episode`: identities copied from
its arguments, the status, and either the error or the newsletter. -/
structure EpResult where
  podcast_id : String
  episode_id : String
  title : String
  status : Status
  failure : Option EpFailure
  newsletter : Option String
deriving DecidableEq

/-- `process_episode(db, podcast, episode)`: the `try` body wrapped in the
catch-all `except Exception` that turns any failure into the structured
error result (handler.py lines 175-183).  Total — the model of "never
raises". -/
def process_episode (podcastId episodeId title : String) (env : EpEnv) : EpResult :=
  match (process_episode_pipeline env).body with
  | .ok newsletter => ⟨podcastId, episodeId, title, .success, none, some newsletter⟩
  | .error e => ⟨podcastId, episodeId, title, .error, some e, none⟩

/-! ### Episode deduplication (src/handler.py, find_unprocessed_episodes;
src/database/crud.py, get_episode_by_guid) -/

/-- A persisted episode row, with the columns the dedup lookup can see. -/
structure DbEpisode where
  podcast_id : String
  rss_guid : String
deriving DecidableEq

/-- `crud.get_episode_by_guid(db, rss_guid)`:
`select(Episodes).where(Episodes.rss_guid == rss_guid)` — the filter is on
the GUID column alone; no podcast-id condition appears in the query. -/
def get_episode_by_guid (db : List DbEpisode) (guid : String) : Option DbEpisode :=
  db.find? (fun r => r.rss_guid == guid)

/-- A feed episode's `publish_date` field as `find_unprocessed_episodes`
receives it: either a string (carrying the result of
`datetime.fromisoformat`, `none` when that parse raises `ValueError`) or
an already-parsed datetime.  Timestamps are seconds since the epoch, UTC. -/
inductive PubDate
  | iso (parsed : Option Int)
  | dt (t : Int)
deriving DecidableEq

/-- The publish timestamp `find_unprocessed_episodes` works with, `none`
when the string form fails to parse (the episode is logged and skipped). -/
def parsePubDate : PubDate → Option Int
  | .iso p => p
  | .dt t => some t

/-- A feed episode dict as produced by `get_recent_episodes`, with the
fields the handler reads, plus the processing environment used if this
episode is processed. -/
structure FeedEpisode where
  id : String
  rss_guid : String
  title : String
  publish_date : PubDate
  proc : EpEnv

/-- `find_unprocessed_episodes(db, podcast, rss_episodes, minutes)` at
wall-clock time `now` (seconds since epoch).  Skips episodes with
unparsable string dates, skips episodes older than the window
(`(now - publish).total_seconds() > minutes * 60`), and keeps an episode
exactly when `get_episode_by_guid` finds no row.  The `podcastId` argument
is used by the source only for logging — it does not enter the lookup. -/
def find_unprocessed_episodes (db : List DbEpisode) (podcastId : String)
    (eps : List FeedEpisode) (minutes now : Int) : List FeedEpisode :=
  match eps with
  | [] => []
  | e :: rest =>
    match parsePubDate e.publish_date with
    | none => find_unprocessed_episodes db podcastId rest minutes now
    | some t =>
      if now - t > minutes * 60 then find_unprocessed_episodes db podcastId rest minutes now
      else
        match get_episode_by_guid db e.rss_guid with
        | some _ => find_unprocessed_episodes db podcastId rest minutes now
        | none => e :: find_unprocessed_episodes db podcastId rest minutes now

/-- The per-episode keep condition of `find_unprocessed_episodes`, written
as one boolean: the date parses, the episode is within the window, and
`get_episode_by_guid` — keyed on the GUID alone — finds no row. -/
def unprocessedPred (db : List DbEpisode) (minutes now : Int) (e : FeedEpisode) : Bool :=
  match parsePubDate e.publish_date with
  | none => false
  | some t => decide (now - t ≤ minutes * 60) && (get_episode_by_guid db e.rss_guid).isNone

/-! ### Batch orchestrator (src/handler.py, lambda_handler) -/

/-- An entry of the handler's `errors` list. -/
structure ErrorEntry where
  podcast : String
  episode : String
  failure : Option EpFailure
deriving DecidableEq

/-- The summary dict `lambda_handler` returns with status code 200.
`errors` is capped at the first 10 entries; `additional_errors_count` is
the number omitted (the source sets the key only when positive; `0` here
models its absence). -/
structure Summary where
  time_window_minutes : Int
  total_podcasts_checked : Nat
  new_episodes_found : Nat
  successfully_processed : Nat
  failed_processes : Nat
  errors : List ErrorEntry
  additional_errors_count : Nat
deriving DecidableEq

/-- The handler's response: the 200 summary, or the 500 error body built by
the top-level `except` when an exception escapes the podcast loop. -/
inductive HandlerResp
  | ok (summary : Summary)
  | serverError (message : String)
deriving DecidableEq

/-- One podcast as the orchestrator sees it: its row plus the outcome of
`get_recent_episodes(podcast)['episodes']` — a list of feed episodes, or
the exception that call raises. -/
structure PodcastRun where
  id : String
  name : String
  feed : Except String (List FeedEpisode)

/-- The inner episode loop of `lambda_handler` (its lines 230-248): each
result tallied as a success or as a failure with an error entry
`{podcast, episode title, error}`.  Returns (successes, failures,
entries). -/
def runEpisodes (podcastId podcastName : String) :
    List FeedEpisode → Nat × Nat × List ErrorEntry
  | [] => (0, 0, [])
  | e :: rest =>
    let r := process_episode podcastId e.id e.title e.proc
    let (s, f, errs) := runEpisodes podcastId podcastName rest
    match r.status with
    | .success => (s + 1, f, errs)
    | .error => (s, f + 1, ⟨podcastName, e.title, r.failure⟩ :: errs)

/-- The podcast loop of `lambda_handler` (its lines 218-248).  The call
`get_recent_episodes(podcast)['episodes']` stands outside any per-podcast
`try`, so its exception aborts the whole loop (the `.error` short-circuit)
and reaches the top-level handler.  Accumulates (new episodes found,
successes, failures, error entries). -/
def lambda_handler_loop (db : List DbEpisode) (minutes now : Int) :
    List PodcastRun → Except String (Nat × Nat × Nat × List ErrorEntry)
  | [] => .ok (0, 0, 0, [])
  | p :: rest =>
    match p.feed with
    | .error msg => .error msg
    | .ok feedEps =>
      let unprocessed := find_unprocessed_episodes db p.id feedEps minutes now
      let (s, f, errs) := runEpisodes p.id p.name unprocessed
      match lambda_handler_loop db minutes now rest with
      | .error msg => .error msg
      | .ok (n2, s2, f2, errs2) =>
        .ok (unprocessed.length + n2, s + s2, f + f2, errs ++ errs2)

/-- `lambda_handler(event, context)`: load podcasts, run the loop, build
the capped summary; an exception escaping the loop yields the 500 error
body instead (handler.py lines 273-282). -/
def lambda_handler (db : List DbEpisode) (pods : List PodcastRun)
    (minutes now : Int) : HandlerResp :=
  match lambda_handler_loop db minutes now pods with
  | .error msg => .serverError msg
  | .ok (n, s, f, errs) =>
    .ok ⟨minutes, pods.length, n, s, f, errs.take 10, errs.length - 10⟩

/-! ### Concrete environments used by the counterexamples and witnesses -/

/-- A download environment in which every external interaction succeeds:
valid URL, HEAD reports 1000 bytes, one fast 1000-byte body chunk. -/
def dlEnvOk : DlEnv :=
  ⟨true, true, true, some 1000, true, none, 450, 840, true, true, [(1000, 1)], true⟩

/-- A download environment whose HEAD probe reports one byte more than the
450 MB limit (450 * 1048576 + 1 bytes). -/
def dlEnvTooLarge : DlEnv :=
  ⟨true, true, true, some 471859201, true, none, 450, 840, true, true, [], true⟩

/-- A download environment in which neither the HEAD response nor the
fallback streaming GET carries a content-length header; the body arrives
as chunks of 5000, 0 and 7000 bytes, all well inside the time limit. -/
def dlEnvNoLength : DlEnv :=
  ⟨true, true, true, none, true, none, 450, 840, true, true, [(5000, 1), (0, 2), (7000, 3)], true⟩

/-- An episode environment for a 10-minute episode (600000 ms, under the
20-minute chunk threshold) in which every step succeeds. -/
def envShortOk : EpEnv :=
  ⟨dlEnvOk, true, 600000, true, fun _ => true, true, "Hello newsletter", true, true⟩

/-- An episode environment for a 40-minute episode (2400000 ms, chunked
into two 20-minute segments) whose generation call fails. -/
def envChunkLeak : EpEnv :=
  ⟨dlEnvOk, true, 2400000, true, fun _ => true, false, "unused", true, true⟩

/-- A feed episode published at epoch second 0 with GUID "guid-1". -/
def feedEpA : FeedEpisode :=
  ⟨"id-1", "guid-1", "Title A", .dt 0, envShortOk⟩

/-- Two podcasts: fetching the first one's feed raises; the second one's
feed holds one processable episode. -/
def podsFeedCrash : List PodcastRun :=
  [⟨"pod-1", "Podcast One", .error "feed boom"⟩,
   ⟨"pod-2", "Podcast Two", .ok [feedEpA]⟩]

/-- A persisted-episode table holding GUID "guid-1" for a different
podcast, "pod-2". -/
def dbOtherPodcast : List DbEpisode := [⟨"pod-2", "guid-1"⟩]

end Lettercast


namespace Lettercast

/-! ### Helper lemmas -/

theorem strongListInd {α : Type} {P : List α → Prop}
    (ind : ∀ s : List α, (∀ t : List α, t.length < s.length → P t) → P s) :
    ∀ s, P s := by
  have key : ∀ n (s : List α), s.length ≤ n → P s := by
    intro n
    induction n with
    | zero => exact fun s hs => ind s (fun t ht => absurd (Nat.lt_of_lt_of_le ht hs) (Nat.not_lt_zero _))
    | succ n ih => exact fun s hs => ind s (fun t ht => ih t (by omega))
  exact fun s => key s.length s le_rfl

theorem decode_encode_spec : ∀ s : List Char,
    (containsBackslashN s = false → decode_newlines (encode_newlines s) = s) ∧
    (containsBackslashN s = true → (decode_newlines (encode_newlines s)).length < s.length) := by
  apply strongListInd
  intro s IH
  have hLe : ∀ t : List Char, t.length < s.length →
      (decode_newlines (encode_newlines t)).length ≤ t.length := by
    intro t ht
    cases hc : containsBackslashN t with
    | false => rw [(IH t ht).1 hc]
    | true => exact le_of_lt ((IH t ht).2 hc)
  match s with
  | [] => exact ⟨fun _ => rfl, fun h => by simp [containsBackslashN] at h⟩
  | [c] =>
    refine ⟨fun _ => ?_, fun h => by simp [containsBackslashN] at h⟩
    by_cases hc : c = '\n'
    · subst hc; simp [encode_newlines, decode_newlines]
    · simp [encode_newlines, hc, decode_newlines]
  | c1 :: c2 :: cs =>
    have hcs : (c2 :: cs).length < (c1 :: c2 :: cs).length := by simp
    have hcs2 : cs.length < (c1 :: c2 :: cs).length := by simp only [List.length_cons]; omega
    by_cases h1 : c1 = '\n'
    · subst h1
      have hkey : decode_newlines (encode_newlines ('\n' :: c2 :: cs)) =
          '\n' :: decode_newlines (encode_newlines (c2 :: cs)) := by
        have h2 : encode_newlines ('\n' :: c2 :: cs) =
            '\\' :: 'n' :: encode_newlines (c2 :: cs) := by
          simp [encode_newlines]
        rw [h2]
        cases hecs : encode_newlines (c2 :: cs) with
        | nil =>
          exfalso
          rcases Decidable.em (c2 = '\n') with h | h <;> simp [encode_newlines, h] at hecs
        | cons d ds => simp [decode_newlines]
      have hcont : containsBackslashN ('\n' :: c2 :: cs) = containsBackslashN (c2 :: cs) := by
        simp [containsBackslashN, (by decide : ¬ (('\n' : Char) = '\\'))]
      constructor
      · intro h
        rw [hkey, (IH _ hcs).1 (by rw [← hcont]; exact h)]
      · intro h
        rw [hkey]
        have := (IH _ hcs).2 (by rw [← hcont]; exact h)
        simp only [List.length_cons] at this ⊢
        omega
    · by_cases h2 : c2 = '\n'
      · subst h2
        have hkey : decode_newlines (encode_newlines (c1 :: '\n' :: cs)) =
            c1 :: '\n' :: decode_newlines (encode_newlines cs) := by
          have henc : encode_newlines (c1 :: '\n' :: cs) =
              c1 :: '\\' :: 'n' :: encode_newlines cs := by
            simp [encode_newlines, h1]
          rw [henc]
          by_cases hb : c1 = '\\'
          · subst hb
            have : decode_newlines ('\\' :: '\\' :: 'n' :: encode_newlines cs) =
                '\\' :: decode_newlines ('\\' :: 'n' :: encode_newlines cs) := by
              simp [decode_newlines]
            rw [this]
            cases hecs : encode_newlines cs with
            | nil => simp [decode_newlines]
            | cons d ds => simp [decode_newlines]
          · have : decode_newlines (c1 :: '\\' :: 'n' :: encode_newlines cs) =
                c1 :: decode_newlines ('\\' :: 'n' :: encode_newlines cs) := by
              simp [decode_newlines, hb]
            rw [this]
            cases hecs : encode_newlines cs with
            | nil => simp [decode_newlines]
            | cons d ds => simp [decode_newlines]
        have hcont : containsBackslashN (c1 :: '\n' :: cs) = containsBackslashN cs := by
          have step1 : containsBackslashN (c1 :: '\n' :: cs) = containsBackslashN ('\n' :: cs) := by
            simp [containsBackslashN, (by decide : ¬ (('\n' : Char) = 'n'))]
          have step2 : containsBackslashN ('\n' :: cs) = containsBackslashN cs := by
            match cs with
            | [] => simp [containsBackslashN]
            | d :: ds => simp [containsBackslashN, (by decide : ¬ (('\n' : Char) = '\\'))]
          rw [step1, step2]
        constructor
        · intro h
          rw [hkey, (IH cs hcs2).1 (by rw [← hcont]; exact h)]
        · intro h
          rw [hkey]
          have := (IH cs hcs2).2 (by rw [← hcont]; exact h)
          simp only [List.length_cons] at this ⊢
          omega
      · have henc : encode_newlines (c1 :: c2 :: cs) = c1 :: c2 :: encode_newlines cs := by
          simp [encode_newlines, h1, h2]
        by_cases hb : c1 = '\\' ∧ c2 = 'n'
        · obtain ⟨hb1, hb2⟩ := hb
          subst hb1; subst hb2
          have hd : decode_newlines (encode_newlines ('\\' :: 'n' :: cs)) =
              '\n' :: decode_newlines (encode_newlines cs) := by
            rw [henc]; simp [decode_newlines]
          constructor
          · intro h; simp [containsBackslashN] at h
          · intro h
            rw [hd]
            have := hLe cs hcs2
            simp only [List.length_cons] at this ⊢
            omega
        · have hd : decode_newlines (c1 :: c2 :: encode_newlines cs) =
              c1 :: decode_newlines (c2 :: encode_newlines cs) := by
            rcases Decidable.em (c1 = '\\') with hb1 | hb1
            · have hb2 : ¬ c2 = 'n' := fun hc => hb ⟨hb1, hc⟩
              simp [decode_newlines, hb1, hb2]
            · simp [decode_newlines, hb1]
          have henc2 : (c2 :: encode_newlines cs) = encode_newlines (c2 :: cs) := by
            simp [encode_newlines, h2]
          have hcont : containsBackslashN (c1 :: c2 :: cs) = containsBackslashN (c2 :: cs) := by
            have hfalse : (decide (c1 = '\\') && decide (c2 = 'n')) = false := by
              rcases Decidable.em (c1 = '\\') with hb1 | hb1
              · have hb2 : ¬ c2 = 'n' := fun hc => hb ⟨hb1, hc⟩
                simp [hb2]
              · simp [hb1]
            simp [containsBackslashN, hfalse]
          constructor
          · intro h
            rw [henc, hd, henc2, (IH _ hcs).1 (by rw [← hcont]; exact h)]
          · intro h
            rw [henc, hd, henc2]
            have := (IH _ hcs).2 (by rw [← hcont]; exact h)
            simp only [List.length_cons] at this ⊢
            omega

theorem lt_ceilDiv_iff {S : Nat} (hS : 0 < S) (L i : Nat) :
    i < ceilDiv L S ↔ i * S < L := by
  unfold ceilDiv
  have hmul : (i + 1) * S = i * S + S := by rw [Nat.succ_mul]
  constructor
  · intro h
    have h2 : (i + 1) * S ≤ L + S - 1 := (Nat.le_div_iff_mul_le hS).mp h
    omega
  · intro h
    have h2 : (i + 1) * S ≤ L + S - 1 := by omega
    exact (Nat.le_div_iff_mul_le hS).mpr h2

theorem pyRange_length (L S : Nat) : (pyRange L S).length = ceilDiv L S := by
  simp [pyRange]

theorem chunkSegs_length (L S : Nat) : (chunkSegs L S).length = ceilDiv L S := by
  simp [chunkSegs, pyRange]

theorem chunkSegs_get (L S : Nat) (i : Nat) (hi : i < (chunkSegs L S).length) :
    (chunkSegs L S).get ⟨i, hi⟩ = (i * S, min (i * S + S) L) := by
  simp [chunkSegs, pyRange, List.get_map, List.get_range]

theorem chunkSegs_sum {S : Nat} (hS : 0 < S) (L : Nat) :
    ((chunkSegs L S).map (fun p => p.2 - p.1)).sum = L := by
  have comp : (chunkSegs L S).map (fun p => p.2 - p.1) =
      (List.range (ceilDiv L S)).map (fun i => min (i * S + S) L - i * S) := by
    simp [chunkSegs, pyRange, List.map_map]
  have partial_sum : ∀ k, k ≤ ceilDiv L S →
      ((List.range k).map (fun i => min (i * S + S) L - i * S)).sum = min (k * S) L := by
    intro k
    induction k with
    | zero => intro _; simp
    | succ k ih =>
      intro hk
      have hkS : k * S < L := (lt_ceilDiv_iff hS L k).mp (by omega)
      rw [List.range_succ, List.map_append, List.sum_append, ih (by omega)]
      have hmul : (k + 1) * S = k * S + S := by rw [Nat.succ_mul]
      simp only [List.map_cons, List.map_nil, List.sum_cons, List.sum_nil]
      omega
  rw [comp, partial_sum (ceilDiv L S) le_rfl]
  have hub : ¬ (ceilDiv L S * S < L) := by
    intro h
    exact absurd ((lt_ceilDiv_iff hS L (ceilDiv L S)).mpr h) (lt_irrefl _)
  omega

theorem chunkGo_all_ok (L S : Nat) (exportOk : Nat → Bool)
    (l : List (Nat × Nat)) (h : ∀ p ∈ l, exportOk p.1 = true) :
    chunkGo L S exportOk l =
      (.ok (l.map (fun p => (p.2, min (p.2 + S) L))), l.length) := by
  induction l with
  | nil => rfl
  | cons p rest ih =>
    obtain ⟨i, st⟩ := p
    have hi : exportOk i = true := h (i, st) (List.mem_cons_self _ _)
    simp only [chunkGo, hi, if_true, ih (fun q hq => h q (List.mem_cons_of_mem _ hq))]
    rfl

theorem enum_map_pair (S L : Nat) (l : List Nat) :
    l.enum.map (fun p : Nat × Nat => (p.2, min (p.2 + S) L)) =
      l.map (fun st => (st, min (st + S) L)) := by
  have : (fun p : Nat × Nat => (p.2, min (p.2 + S) L)) =
      (fun st => (st, min (st + S) L)) ∘ Prod.snd := rfl
  rw [this, ← List.map_map, List.enum_map_snd]

theorem chunk_audio_all_ok (L m : Nat) (exportOk : Nat → Bool)
    (hexp : ∀ i, exportOk i = true) :
    chunk_audio L m true exportOk =
      ⟨.ok (chunkSegs L (m * 60 * 1000)), ceilDiv L (m * 60 * 1000)⟩ := by
  unfold chunk_audio
  simp only [if_true]
  rw [chunkGo_all_ok _ _ _ _ (fun p _ => hexp p.1)]
  simp [enum_map_pair, chunkSegs, pyRange, List.enum_length]

theorem chunkGo_first_fail (L S : Nat) (exportOk : Nat → Bool) :
    ∀ (l : List (Nat × Nat)) (p : Nat) (hp : p < l.length),
      (∀ q (hq : q < l.length), q < p → exportOk (l.get ⟨q, hq⟩).1 = true) →
      exportOk (l.get ⟨p, hp⟩).1 = false →
      chunkGo L S exportOk l = (.error (), p + 1) := by
  intro l
  induction l with
  | nil => intro p hp; exact absurd hp (by simp)
  | cons x rest ih =>
    intro p hp hbefore hfail
    obtain ⟨i, st⟩ := x
    cases p with
    | zero =>
      simp only [List.get] at hfail
      simp [chunkGo, hfail]
    | succ p =>
      have hx : exportOk i = true := by
        have := hbefore 0 (by simp) (Nat.succ_pos p)
        simpa using this
      have hrec : chunkGo L S exportOk rest = (.error (), p + 1) := by
        apply ih p (by simpa using hp)
        · intro q hq hqp
          have := hbefore (q + 1) (by simpa using Nat.succ_lt_succ hq) (Nat.succ_lt_succ hqp)
          simpa using this
        · simpa using hfail
      simp [chunkGo, hx, hrec]

theorem get_enum_fst (l : List Nat) (q : Nat) (hq : q < l.enum.length) :
    (l.enum.get ⟨q, hq⟩).1 = q := by
  rw [List.get_enum]

theorem chunk_audio_first_fail (L m j : Nat) (exportOk : Nat → Bool)
    (hj : j < ceilDiv L (m * 60 * 1000))
    (hbefore : ∀ q, q < j → exportOk q = true)
    (hfail : exportOk j = false) :
    chunk_audio L m true exportOk = ⟨.error (), j + 1⟩ := by
  unfold chunk_audio
  simp only [if_true]
  have hlen : (pyRange L (m * 60 * 1000)).enum.length = ceilDiv L (m * 60 * 1000) := by
    simp [List.enum_length, pyRange]
  have hgo : chunkGo L (m * 60 * 1000) exportOk (pyRange L (m * 60 * 1000)).enum =
      (.error (), j + 1) := by
    apply chunkGo_first_fail L (m * 60 * 1000) exportOk _ j (by omega)
    · intro q hq hqj
      rw [get_enum_fst]
      exact hbefore q hqj
    · rw [get_enum_fst]
      exact hfail
  rw [hgo]

end Lettercast

namespace Lettercast

theorem dlLoop_status (m : Nat) : ∀ (l : List (Nat × Nat)) (w : Nat),
    (dlLoop m l w).1 = none ∨ (dlLoop m l w).1 = some DlError.timeout := by
  intro l
  induction l with
  | nil => intro w; left; rfl
  | cons c rest ih =>
    intro w
    obtain ⟨sz, t⟩ := c
    simp only [dlLoop]
    split
    · exact ih w
    · split
      · right; rfl
      · exact ih _

theorem dlLoop_all_fast (m : Nat) : ∀ (l : List (Nat × Nat)) (w : Nat),
    (∀ c ∈ l, c.2 ≤ m) → dlLoop m l w = (none, w + (l.map Prod.fst).sum) := by
  intro l
  induction l with
  | nil => intro w _; simp [dlLoop]
  | cons c rest ih =>
    intro w h
    obtain ⟨sz, t⟩ := c
    have ht : t ≤ m := h (sz, t) (List.mem_cons_self _ _)
    have hrest : ∀ c ∈ rest, c.2 ≤ m := fun c hc => h c (List.mem_cons_of_mem _ hc)
    simp only [dlLoop]
    split
    · rw [ih w hrest]
      simp_all
    · rw [if_neg (by omega), ih _ hrest]
      simp only [List.map_cons, List.sum_cons]
      rw [Nat.add_assoc]

theorem download_audio_cases (env : DlEnv) :
    (download_audio env).filesRemaining = 0 ∨ (download_audio env).result = .ok () := by
  unfold download_audio
  split
  · split
    · left; rfl
    · split
      · left; rfl
      · split
        · split
          · split
            · left; rfl
            · split
              · right; rfl
              · left; rfl
          · left; rfl
        · left; rfl
  · left; rfl

end Lettercast

namespace Lettercast

/-- C7: when the probed total size (HEAD content-length, or the streaming
GET's content-length when HEAD omits it) exceeds the byte limit
`max_file_size_mb * 1024 * 1024`, `download_audio` fails with
`FileSizeError` before any body bytes are written: no temporary file is
ever created and zero files (and zero bytes) remain in the scratch
directory. -/
theorem C7_size_limit_before_write (env : DlEnv) (T : Nat)
    (hscheme : env.schemeOk = true) (hhost : env.hostOk = true)
    (hprobe : probeSize env = .ok T)
    (hbig : env.maxFileSizeMb * 1048576 < T) :
    download_audio env = ⟨.error .sizeLimitExceeded, false, 0, 0⟩ := by
  unfold download_audio
  rw [hscheme, hhost]
  simp only [Bool.and_self, if_true]
  rw [hprobe]
  simp only [gt_iff_lt, if_pos hbig]

/-- C7 witness: a HEAD probe reporting 450 MB + 1 byte against the default
450 MB limit. -/
theorem C7_size_limit_witness :
    download_audio dlEnvTooLarge = ⟨.error .sizeLimitExceeded, false, 0, 0⟩ :=
  C7_size_limit_before_write dlEnvTooLarge 471859201 rfl rfl rfl (by decide)

/-- C9: when neither the HEAD response nor the fallback streaming GET
carries a content-length header, `download_audio` takes the total size to
be `0`, so the size check passes for every positive `max_file_size_mb`:
the result is never `FileSizeError`, and when the remaining steps succeed
the whole body is written regardless of its actual size. -/
theorem C9_no_content_length_no_limit (env : DlEnv)
    (hscheme : env.schemeOk = true) (hhost : env.hostOk = true)
    (hhead : env.headOk = true) (hheadCL : env.headContentLength = none)
    (hget : env.getProbeOk = true) (hgetCL : env.getContentLength = none)
    (hmax : 0 < env.maxFileSizeMb) :
    (download_audio env).result ≠ .error .sizeLimitExceeded ∧
    (env.createOk = true → env.bodyOk = true → env.streamTailOk = true →
      (∀ c ∈ env.chunks, c.2 ≤ env.maxDownloadSeconds) →
      download_audio env = ⟨.ok (), true, 1, (env.chunks.map Prod.fst).sum⟩) := by
  have hprobe : probeSize env = .ok 0 := by
    simp [probeSize, hhead, hheadCL, hget, hgetCL]
  have hsize : ¬ (env.maxFileSizeMb * 1048576 < 0) := by omega
  constructor
  · intro hcontra
    unfold download_audio at hcontra
    rw [hscheme, hhost] at hcontra
    simp only [Bool.and_self, if_true] at hcontra
    rw [hprobe] at hcontra
    simp only [] at hcontra
    rw [if_neg hsize] at hcontra
    rcases hc : env.createOk with _ | _ <;> rw [hc] at hcontra
    · simp at hcontra
    · rcases hb : env.bodyOk with _ | _ <;> rw [hb] at hcontra
      · simp at hcontra
      · simp only [if_true] at hcontra
        rcases hp : dlLoop env.maxDownloadSeconds env.chunks 0 with ⟨o, w⟩
        rcases dlLoop_status env.maxDownloadSeconds env.chunks 0 with h0 | h0 <;>
          rw [hp] at h0 hcontra <;> simp at h0 <;> subst h0
        · rcases hst : env.streamTailOk with _ | _ <;> rw [hst] at hcontra <;>
            simp at hcontra
        · simp at hcontra
  · intro hcr hbody hst hfast
    unfold download_audio
    rw [hscheme, hhost]
    simp only [Bool.and_self, if_true]
    rw [hprobe]
    simp only []
    rw [if_neg hsize, hcr, hbody]
    simp only [if_true]
    rw [dlLoop_all_fast _ _ _ hfast]
    simp only [Nat.zero_add]
    rw [hst]
    simp only [if_true]

/-- C9 witness: a download with no content-length anywhere whose
12000-byte body (three chunks, one empty) is written in full. -/
theorem C9_no_content_length_witness :
    (download_audio dlEnvNoLength).result ≠ .error .sizeLimitExceeded ∧
    download_audio dlEnvNoLength = ⟨.ok (), true, 1, 12000⟩ := by
  have h := C9_no_content_length_no_limit dlEnvNoLength rfl rfl rfl rfl rfl rfl (by decide)
  exact ⟨h.1, h.2 rfl rfl rfl (by decide)⟩

end Lettercast

namespace Lettercast

theorem pipeline_downloadFiles (env : EpEnv) :
    (process_episode_pipeline env).disk.downloadFiles = 0 := by
  unfold process_episode_pipeline
  rcases hdl : (download_audio env.dl).result with e | u
  · simp only []
    rcases download_audio_cases env.dl with h0 | hok
    · simpa using h0
    · rw [hdl] at hok
      simp at hok
  · simp only []
    repeat' split
    all_goals rfl

theorem pipeline_success_disk (env : EpEnv) (nl : String)
    (h : (process_episode_pipeline env).body = .ok nl) :
    (process_episode_pipeline env).disk = ⟨0, 0⟩ := by
  unfold process_episode_pipeline at h ⊢
  rcases hdl : (download_audio env.dl).result with e | u
  · rw [hdl] at h
    simp at h
  · rw [hdl] at h
    simp only [] at h ⊢
    repeat' split at h
    all_goals simp_all
    all_goals (split <;> rfl)

/-- C1 (amended): on every exit path of `process_episode` the downloaded
file is gone — the downloader deletes its partial file on its own
failures, and `download_audio_context`'s `finally` deletes it on every
exit from the `with` block — and when the invocation returns a success
result no chunk file remains either.  (The original claim fails: chunk
files are deleted only on the success path; see the counterexample.) -/
theorem C1_cleanup_amended (pid eid t : String) (env : EpEnv) :
    (process_episode_pipeline env).disk.downloadFiles = 0 ∧
    ((process_episode pid eid t env).status = Status.success →
      (process_episode_pipeline env).disk = ⟨0, 0⟩) := by
  refine ⟨pipeline_downloadFiles env, fun h => ?_⟩
  have hex : ∃ nl, (process_episode_pipeline env).body = .ok nl := by
    unfold process_episode at h
    rcases hb : (process_episode_pipeline env).body with e | nl
    · rw [hb] at h
      simp at h
    · exact ⟨nl, rfl⟩
  obtain ⟨nl, hb⟩ := hex
  exact pipeline_success_disk env nl hb

/-- C1 counterexample: a 40-minute episode is chunked into two segments,
generation then fails; the invocation returns an error result while both
chunk files are still on disk — not every temporary artifact was deleted. -/
theorem C1_chunks_remain_counterexample :
    (process_episode "pod-1" "id-1" "Title A" envChunkLeak).status = Status.error ∧
    (process_episode_pipeline envChunkLeak).disk.chunkFiles = 2 := by
  exact ⟨rfl, rfl⟩

/-- C5: `process_episode` is the catch-all boundary: it is total, its
status is always `success` or `error`, every exception of the `try` body
becomes the structured error result (identities preserved, the error
attached), and a completed body becomes the structured success result
carrying the newsletter. -/
theorem C5_never_raises (pid eid t : String) (env : EpEnv) :
    ((process_episode pid eid t env).status = Status.success ∨
      (process_episode pid eid t env).status = Status.error) ∧
    (∀ e, (process_episode_pipeline env).body = .error e →
      process_episode pid eid t env = ⟨pid, eid, t, .error, some e, none⟩) ∧
    (∀ nl, (process_episode_pipeline env).body = .ok nl →
      process_episode pid eid t env = ⟨pid, eid, t, .success, none, some nl⟩) := by
  rcases hb : (process_episode_pipeline env).body with e | nl <;>
    simp [process_episode, hb]

/-- C3 (amended): whenever `process_episode` reaches the generation call,
the file it passes as `audio_path` is the raw downloaded file — no
normalization (`transform_audio`: mono, 16 kHz re-encode) is applied
anywhere in `process_episode`.  (The original claim fails: the normalized
artifact is never produced; see the counterexample.) -/
theorem C3_raw_audio_amended (env : EpEnv) (call : GenCall)
    (h : (process_episode_pipeline env).generationCall = some call) :
    call.mainAudio = FileKind.downloaded := by
  unfold process_episode_pipeline at h
  rcases hdl : (download_audio env.dl).result with e | u
  · rw [hdl] at h
    simp at h
  · rw [hdl] at h
    simp only [] at h
    repeat' split at h
    all_goals simp_all
    all_goals rw [← h]

/-- C3 amended witness: the generation call of the short-episode run
passes the raw downloaded file. -/
theorem C3_raw_audio_witness :
    (⟨FileKind.downloaded, 0⟩ : GenCall).mainAudio = FileKind.downloaded :=
  C3_raw_audio_amended envShortOk ⟨FileKind.downloaded, 0⟩ rfl

/-- C3 counterexample: a successful 10-minute run reaches generation with
`audio_path` bound to the raw downloaded file, not to a normalized
artifact — the claim "the artifact passed to generation is the normalized
output, never the raw downloaded file" is false. -/
theorem C3_counterexample_raw_file :
    (process_episode_pipeline envShortOk).generationCall =
      some ⟨FileKind.downloaded, 0⟩ ∧
    FileKind.downloaded ≠ FileKind.normalized := by
  exact ⟨rfl, by decide⟩

end Lettercast

namespace Lettercast

theorem find_unprocessed_eq_filter (db : List DbEpisode) (pid : String)
    (eps : List FeedEpisode) (minutes now : Int) :
    find_unprocessed_episodes db pid eps minutes now =
      eps.filter (unprocessedPred db minutes now) := by
  induction eps with
  | nil => rfl
  | cons e rest ih =>
    rw [List.filter_cons]
    unfold find_unprocessed_episodes
    rcases hp : parsePubDate e.publish_date with _ | t
    · have hpred : unprocessedPred db minutes now e = false := by
        unfold unprocessedPred
        rw [hp]
      simp only []
      rw [hpred, ih]
      simp
    · simp only []
      by_cases hw : now - t > minutes * 60
      · have hgt : ¬ (now - t ≤ minutes * 60) := by omega
        have hpred : unprocessedPred db minutes now e = false := by
          unfold unprocessedPred
          rw [hp]
          simp only []
          rw [decide_eq_false hgt]
          simp
        rw [if_pos hw, hpred, ih]
        simp
      · have hle : now - t ≤ minutes * 60 := by omega
        rw [if_neg hw]
        rcases hg : get_episode_by_guid db e.rss_guid with _ | r
        · have hpred : unprocessedPred db minutes now e = true := by
            unfold unprocessedPred
            rw [hp]
            simp only []
            rw [decide_eq_true hle, hg]
            rfl
          simp only []
          rw [hpred, ih]
          simp
        · have hpred : unprocessedPred db minutes now e = false := by
            unfold unprocessedPred
            rw [hp]
            simp only []
            rw [decide_eq_true hle, hg]
            rfl
          simp only []
          rw [hpred, ih]
          simp

/-- C4 (amended): the deduplicator keys its lookup on the GUID alone —
it keeps exactly the in-window, parseable-date episodes for which
`get_episode_by_guid` (a filter on the `rss_guid` column only) finds no
row, and its output does not depend on which podcast is being checked.
(The original claim fails: a row of a different podcast with the same GUID
does count as a match; see the counterexample.) -/
theorem C4_guid_only_amended (db : List DbEpisode) (pid1 pid2 : String)
    (eps : List FeedEpisode) (minutes now : Int) :
    find_unprocessed_episodes db pid1 eps minutes now =
      eps.filter (unprocessedPred db minutes now) ∧
    find_unprocessed_episodes db pid1 eps minutes now =
      find_unprocessed_episodes db pid2 eps minutes now := by
  refine ⟨find_unprocessed_eq_filter db pid1 eps minutes now, ?_⟩
  rw [find_unprocessed_eq_filter db pid1 eps minutes now,
    find_unprocessed_eq_filter db pid2 eps minutes now]

/-- C4 counterexample: podcast "pod-1" is checked while the store holds
`(pod-2, guid-1)`; the feed episode with GUID "guid-1", inside the window,
is nevertheless treated as already processed (the result is empty), even
though no row of podcast "pod-1" carries that GUID. -/
theorem C4_cross_podcast_counterexample :
    find_unprocessed_episodes dbOtherPodcast "pod-1" [feedEpA] 60 0 = [] ∧
    ("pod-1" : String) ≠ "pod-2" := by
  exact ⟨rfl, by decide⟩

/-- C2: a podcast whose feed fetch raises aborts the whole run — the
exception of `get_recent_episodes` propagates past the podcast loop to the
top-level handler, which returns the 500-style error body; the remaining
podcasts are not processed and no 200 summary with an error entry is
produced.  Here the first of two podcasts fails and the run returns the
500 body, although the second podcast alone would have yielded a clean
200 summary with one processed episode. -/
theorem C2_feed_failure_aborts_run :
    lambda_handler [] podsFeedCrash 60 0 = .serverError "feed boom" ∧
    lambda_handler [] [⟨"pod-2", "Podcast Two", .ok [feedEpA]⟩] 60 0 =
      .ok ⟨60, 1, 1, 1, 0, [], 0⟩ := by
  exact ⟨rfl, rfl⟩

/-- C6 (amended): when exporting segment `j` fails after segments
`0..j-1` were exported, `chunk_audio` raises a single
`AudioTransformationError` wrapping the cause, but it deletes nothing:
the `j` sibling chunk files already written remain on disk, and so does
the failing segment's own temp file, which `NamedTemporaryFile` created
before the export ran — `j + 1` files in all.  (The original claim's
cleanup part fails; see the counterexample.) -/
theorem C6_no_sibling_cleanup_amended (L m j : Nat) (exportOk : Nat → Bool)
    (hj : j < ceilDiv L (m * 60 * 1000))
    (hbefore : ∀ q, q < j → exportOk q = true)
    (hfail : exportOk j = false) :
    chunk_audio L m true exportOk = ⟨.error (), j + 1⟩ :=
  chunk_audio_first_fail L m j exportOk hj hbefore hfail

/-- C6 amended witness: a 1.5-minute file cut into 1-minute segments,
where exporting the second segment fails: the first chunk and the second
segment's pre-created temp file remain — two files. -/
theorem C6_no_sibling_cleanup_witness :
    chunk_audio 90000 1 true (fun i => decide (i = 0)) = ⟨.error (), 2⟩ :=
  C6_no_sibling_cleanup_amended 90000 1 1 (fun i => decide (i = 0)) (by decide)
    (fun q hq => by interval_cases q; rfl) rfl

/-- C6 counterexample: a 40-minute file cut into 20-minute segments with
the second export failing raises the single error, yet two files are left
behind (the exported first chunk and the failing segment's temp file) —
"no partial chunk files are left behind" is false. -/
theorem C6_partial_chunks_counterexample :
    (chunk_audio 2400000 20 true (fun i => decide (i = 0))).result = .error () ∧
    (chunk_audio 2400000 20 true (fun i => decide (i = 0))).filesRemaining = 2 := by
  exact ⟨rfl, rfl⟩

/-- C8: for audio of `L` ms (`L > 0`) split into `m`-minute segments
(`S = m * 60 * 1000` ms) with every export succeeding, `chunk_audio`
produces exactly `ceil(L/S)` segments; segment `i` covers exactly
`[i*S, min((i+1)*S, L))`; consecutive segments share their boundary
(gapless and non-overlapping); and the segment durations sum to exactly
`L`. -/
theorem C8_chunk_coverage (L m : Nat) (exportOk : Nat → Bool)
    (_hL : 0 < L) (hm : 0 < m) (hexp : ∀ i, exportOk i = true) :
    chunk_audio L m true exportOk =
      ⟨.ok (chunkSegs L (m * 60 * 1000)), ceilDiv L (m * 60 * 1000)⟩ ∧
    (chunkSegs L (m * 60 * 1000)).length = ceilDiv L (m * 60 * 1000) ∧
    (∀ i (hi : i < (chunkSegs L (m * 60 * 1000)).length),
      (chunkSegs L (m * 60 * 1000)).get ⟨i, hi⟩ =
        (i * (m * 60 * 1000), min ((i + 1) * (m * 60 * 1000)) L)) ∧
    (∀ i (hi : i + 1 < (chunkSegs L (m * 60 * 1000)).length),
      ((chunkSegs L (m * 60 * 1000)).get ⟨i, by omega⟩).2 =
        ((chunkSegs L (m * 60 * 1000)).get ⟨i + 1, hi⟩).1) ∧
    ((chunkSegs L (m * 60 * 1000)).map (fun p => p.2 - p.1)).sum = L := by
  have hS : 0 < m * 60 * 1000 := by positivity
  refine ⟨chunk_audio_all_ok L m exportOk hexp, chunkSegs_length L _, ?_, ?_, chunkSegs_sum hS L⟩
  · intro i hi
    rw [chunkSegs_get, Nat.succ_mul]
  · intro i hi
    rw [chunkSegs_get, chunkSegs_get]
    have hlen : (chunkSegs L (m * 60 * 1000)).length = ceilDiv L (m * 60 * 1000) :=
      chunkSegs_length L _
    have hstart : (i + 1) * (m * 60 * 1000) < L := by
      rw [hlen] at hi
      exact (lt_ceilDiv_iff hS L (i + 1)).mp hi
    have hmul : (i + 1) * (m * 60 * 1000) = i * (m * 60 * 1000) + m * 60 * 1000 := by
      rw [Nat.succ_mul]
    simp only []
    omega

/-- C8 witness: 90 seconds of audio in 1-minute segments gives two
segments `[0, 60000)` and `[60000, 90000)`. -/
theorem C8_chunk_coverage_witness :
    chunk_audio 90000 1 true (fun _ => true) =
      ⟨.ok (chunkSegs 90000 (1 * 60 * 1000)), ceilDiv 90000 (1 * 60 * 1000)⟩ :=
  (C8_chunk_coverage 90000 1 (fun _ => true) (by decide) (by decide) (fun _ => rfl)).1

/-- C10: the ORM listeners replace each newline by the two-character
sequence backslash-n when a summary is set (`encode_newlines`) and apply
the reverse replacement on load (`decode_newlines`); consequently
store-then-load is the identity on every text with no literal backslash-n,
while a text already containing a literal backslash-n is not restored
verbatim. -/
theorem C10_newline_roundtrip (s : List Char) :
    (containsBackslashN s = false → decode_newlines (encode_newlines s) = s) ∧
    (containsBackslashN s = true → decode_newlines (encode_newlines s) ≠ s) := by
  refine ⟨(decode_encode_spec s).1, fun h hEq => ?_⟩
  have hlt := (decode_encode_spec s).2 h
  rw [hEq] at hlt
  exact lt_irrefl _ hlt

end Lettercast
